import Mathlib

/-!
Verification of `fourbar_mechanism.py` (orthogonal dual Scotch-yoke animation).

The program evaluates a closed-form parametric curve
  x(t) = Rx * cos(omega_x * t + phi_x),  y(t) = Ry * sin(omega_y * t + phi_y)
over a fixed time grid `t_values = linspace(0, T, N)` and keeps a bounded
trail (two parallel Python lists `trail_x`, `trail_y`, evicted from the
front once their length exceeds `trail_max`).

Floating-point numbers of the source are modelled as real numbers; the
Python lists as Lean `List`s.
-/

open Real

/-- `Rx = 3.0`, crank radius for the X-slider (line 17 of the source). -/
noncomputable def Rx : ℝ := 3

/-- `Ry = 2.0`, crank radius for the Y-slider (line 18). -/
noncomputable def Ry : ℝ := 2

/-- `omega_x = 1.0` (line 19). -/
noncomputable def omega_x : ℝ := 1

/-- `phi_x = 0.0` (line 20). -/
noncomputable def phi_x : ℝ := 0

/-- `phi = (1 + np.sqrt(5)) / 2`, the golden ratio (line 23). -/
noncomputable def phi : ℝ := (1 + Real.sqrt 5) / 2

/-- `omega_y = phi * omega_x` (line 24). -/
noncomputable def omega_y : ℝ := phi * omega_x

/-- `phi_y = 0.0` (line 25). -/
noncomputable def phi_y : ℝ := 0

/-- `T = 60`, total simulated time units (line 28). -/
def T : ℕ := 60

/-- `fps = 20`, frames per second (line 29). -/
def fps : ℕ := 20

/-- `N = int(T * fps)`, total frames (line 30); `T` and `fps` are Python
ints, so `int` is the identity here. -/
def N : ℕ := T * fps

/-- `trail_max = 8000`, trail capacity (line 33). -/
def trail_max : ℕ := 8000

/-- `crank_pin_x(t)` (lines 38-40):
`(Rx*cos(omega_x*t+phi_x), Rx*sin(omega_x*t+phi_x))`. -/
noncomputable def crank_pin_x (t : ℝ) : ℝ × ℝ :=
  (Rx * Real.cos (omega_x * t + phi_x), Rx * Real.sin (omega_x * t + phi_x))

/-- `crank_pin_y(t)` (lines 42-44):
`(Ry*cos(omega_y*t+phi_y), Ry*sin(omega_y*t+phi_y))`. -/
noncomputable def crank_pin_y (t : ℝ) : ℝ × ℝ :=
  (Ry * Real.cos (omega_y * t + phi_y), Ry * Real.sin (omega_y * t + phi_y))

/-- `sliders_intersection(t)` (lines 46-50), the traced point:
`x = Rx*cos(omega_x*t+phi_x)`, `y = Ry*sin(omega_y*t+phi_y)`. -/
noncomputable def sliders_intersection (t : ℝ) : ℝ × ℝ :=
  (Rx * Real.cos (omega_x * t + phi_x), Ry * Real.sin (omega_y * t + phi_y))

/-- `t_values = np.linspace(0, T, N)` (line 80): `N` evenly spaced samples
`i * T / (N - 1)` for `i = 0, ..., N-1`. -/
noncomputable def t_values : List ℝ :=
  (List.range N).map (fun i : ℕ => (T : ℝ) * (i : ℝ) / ((N : ℝ) - 1))

/-- The trail-buffer portion of `update` (lines 117-121): append `x` to
`trail_x` and `y` to `trail_y`; if `len(trail_x) > trail_max`, delete
`trail_x[:len(trail_x)-trail_max]` and `trail_y[:len(trail_y)-trail_max]`
(i.e. keep only the last `trail_max` entries of each list). -/
def update_trail (m : ℕ) (st : List ℝ × List ℝ) (p : ℝ × ℝ) : List ℝ × List ℝ :=
  let tx := st.1 ++ [p.1]
  let ty := st.2 ++ [p.2]
  if m < tx.length then (tx.drop (tx.length - m), ty.drop (ty.length - m)) else (tx, ty)

/-- Run the frame loop's trail updates over a list of traced points,
starting from the initial empty lists `trail_x, trail_y = [], []` (line 34). -/
def run_trail (m : ℕ) (pts : List (ℝ × ℝ)) : List ℝ × List ℝ :=
  pts.foldl (update_trail m) ([], [])

/-- Instrumented version of the frame loop: same trail state as
`run_trail`, plus a count of how many frames took the eviction branch
`if len(trail_x) > trail_max` (line 119). -/
def run_trail_evict (m : ℕ) (pts : List (ℝ × ℝ)) : (List ℝ × List ℝ) × ℕ :=
  pts.foldl
    (fun st p =>
      (update_trail m st.1 p, st.2 + if m < (st.1.1 ++ [p.1]).length then 1 else 0))
    (([], []), 0)

/-- The last `min m l.length` elements of `l`, in order. -/
def lastN (m : ℕ) (l : List α) : List α := l.drop (l.length - m)

/-- C1: the trajectory evaluator returns exactly the specified closed
forms, and the traced point shares its x with `crank_pin_x` and its y
with `crank_pin_y`. -/
theorem crank_pins_and_trace_closed_forms (t : ℝ) :
    crank_pin_x t = (Rx * Real.cos (omega_x * t + phi_x), Rx * Real.sin (omega_x * t + phi_x)) ∧
    crank_pin_y t = (Ry * Real.cos (omega_y * t + phi_y), Ry * Real.sin (omega_y * t + phi_y)) ∧
    sliders_intersection t =
      (Rx * Real.cos (omega_x * t + phi_x), Ry * Real.sin (omega_y * t + phi_y)) ∧
    (sliders_intersection t).1 = (crank_pin_x t).1 ∧
    (sliders_intersection t).2 = (crank_pin_y t).2 :=
  ⟨rfl, rfl, rfl, rfl, rfl⟩

/-- Dropping one element from the front of a full (length-`m`) kept suffix
with one point appended yields the kept suffix of the extended history. -/
lemma lastN_append_single_drop (m : ℕ) (l : List ℝ) (x : ℝ) (h : m ≤ l.length) :
    (lastN m l ++ [x]).drop 1 = lastN m (l ++ [x]) := by
  unfold lastN
  rw [List.drop_append_eq_append_drop, List.drop_append_eq_append_drop, List.drop_drop]
  simp only [List.length_append, List.length_drop, List.length_singleton]
  congr 1
  · congr 1
    omega
  · congr 1
    omega

/-- One `update` step maps kept-suffix states to kept-suffix states: if the
two trail lists hold the last `m` points of equal-length histories, then
after appending and (possibly) evicting they hold the last `m` points of
the extended histories. -/
lemma update_trail_lastN (m : ℕ) (hx hy : List ℝ) (hlen : hx.length = hy.length)
    (p : ℝ × ℝ) :
    update_trail m (lastN m hx, lastN m hy) p = (lastN m (hx ++ [p.1]), lastN m (hy ++ [p.2])) := by
  rcases Nat.lt_or_ge hx.length m with hnm | hmn
  · -- room left: the eviction branch is not taken
    have h0x : hx.length - m = 0 := by omega
    have h0y : hy.length - m = 0 := by omega
    have hcond : ¬ m < hx.length + 1 := by omega
    have hr1 : hx.length + 1 - m = 0 := by omega
    have hr2 : hy.length + 1 - m = 0 := by omega
    simp [update_trail, lastN, h0x, h0y, hcond, hr1, hr2]
  · -- buffer full: one element is evicted from the front
    have hmx : (lastN m hx).length = m := by simp [lastN]; omega
    have hmy : (lastN m hy).length = m := by simp [lastN]; omega
    have hcond : m < (lastN m hx ++ [p.1]).length := by simp [hmx]
    have hd1 : (lastN m hx ++ [p.1]).length - m = 1 := by simp [hmx]
    have hd2 : (lastN m hy ++ [p.2]).length - m = 1 := by simp [hmy]
    have e1 := lastN_append_single_drop m hx p.1 hmn
    have e2 := lastN_append_single_drop m hy p.2 (by omega)
    simp only [update_trail, hcond, if_pos, hd1, hd2]
    exact Prod.ext e1 e2

/-- Folding the frame updates from a kept-suffix state extends the
histories pointwise. -/
lemma run_trail_fold (m : ℕ) (pts : List (ℝ × ℝ)) :
    ∀ hx hy : List ℝ, hx.length = hy.length →
      pts.foldl (update_trail m) (lastN m hx, lastN m hy)
        = (lastN m (hx ++ pts.map Prod.fst), lastN m (hy ++ pts.map Prod.snd)) := by
  induction pts with
  | nil => intro hx hy _; simp
  | cons p ps ih =>
      intro hx hy hlen
      rw [List.foldl_cons, update_trail_lastN m hx hy hlen p,
        ih (hx ++ [p.1]) (hy ++ [p.2]) (by simp [hlen])]
      simp

/-- The trail buffer after any run is exactly the last `min m calls`
appended coordinates, in chronological order. -/
lemma run_trail_eq (m : ℕ) (pts : List (ℝ × ℝ)) :
    run_trail m pts = (lastN m (pts.map Prod.fst), lastN m (pts.map Prod.snd)) := by
  have h := run_trail_fold m pts [] [] rfl
  simpa [run_trail, lastN] using h

/-- C2: after any finite sequence of appends, the trail length is at most
`trail_max` (here an arbitrary capacity `m`), and the buffer holds exactly
the last `min calls m` appended points in chronological order. -/
theorem trail_buffer_bounded_and_suffix (m : ℕ) (pts : List (ℝ × ℝ)) :
    (run_trail m pts).1.length ≤ m ∧
    (run_trail m pts).2.length ≤ m ∧
    (run_trail m pts).1.length = min pts.length m ∧
    (run_trail m pts).1 = lastN m (pts.map Prod.fst) ∧
    (run_trail m pts).2 = lastN m (pts.map Prod.snd) := by
  rw [run_trail_eq]
  refine ⟨?_, ?_, ?_, rfl, rfl⟩ <;> simp [lastN] <;> omega

/-- C6: with `trail_max = 0`, the buffer is empty after every append. -/
theorem trail_buffer_capacity_zero (pts : List (ℝ × ℝ)) :
    run_trail 0 pts = ([], []) := by
  rw [run_trail_eq]
  simp [lastN]

/-- C9: `trail_x` and `trail_y` always have equal length after any run of
frame updates, so every buffer index holds a complete 2D point. -/
theorem trail_lists_parallel (m : ℕ) (pts : List (ℝ × ℝ)) :
    (run_trail m pts).1.length = (run_trail m pts).2.length := by
  rw [run_trail_eq]
  simp [lastN]

/-- C3: a 10000-frame run at capacity `trail_max = 8000` ends with exactly
the trace points of frames 2000..9999, in chronological order, whatever
the time grid `ts` supplies for those frames. -/
theorem frame_loop_10000_keeps_last_8000 (ts : ℕ → ℝ) :
    (run_trail trail_max ((List.range 10000).map fun i => sliders_intersection (ts i))).1
      = (((List.range 10000).map fun i => sliders_intersection (ts i)).drop 2000).map Prod.fst ∧
    (run_trail trail_max ((List.range 10000).map fun i => sliders_intersection (ts i))).2
      = (((List.range 10000).map fun i => sliders_intersection (ts i)).drop 2000).map Prod.snd ∧
    (run_trail trail_max ((List.range 10000).map fun i => sliders_intersection (ts i))).1.length
      = 8000 := by
  rw [run_trail_eq]
  refine ⟨?_, ?_, ?_⟩ <;>
    simp [lastN, trail_max, List.length_map, List.length_range]

/-- Folding the instrumented frame updates from a state that still has
room for all remaining points never takes the eviction branch: the points
are appended verbatim and the eviction count stays put. -/
lemma run_trail_evict_fold (m : ℕ) (pts : List (ℝ × ℝ)) :
    ∀ (sx sy : List ℝ) (c : ℕ), sx.length + pts.length ≤ m →
      pts.foldl
          (fun st p =>
            (update_trail m st.1 p, st.2 + if m < (st.1.1 ++ [p.1]).length then 1 else 0))
          ((sx, sy), c)
        = ((sx ++ pts.map Prod.fst, sy ++ pts.map Prod.snd), c) := by
  induction pts with
  | nil => intro sx sy c _; simp
  | cons p ps ih =>
      intro sx sy c hle
      have hcond : ¬ m < (sx ++ [p.1]).length := by
        simp only [List.length_append, List.length_singleton]
        simp only [List.length_cons] at hle
        omega
      rw [List.foldl_cons]
      have hstep :
          (update_trail m ((sx, sy), c).1 p,
              ((sx, sy), c).2 + if m < (((sx, sy), c).1.1 ++ [p.1]).length then 1 else 0)
            = ((sx ++ [p.1], sy ++ [p.2]), c) := by
        simp only [update_trail, if_neg hcond, Nat.add_zero]
      rw [hstep,
        ih (sx ++ [p.1]) (sy ++ [p.2]) c
          (by
            simp only [List.length_append, List.length_singleton]
            simp only [List.length_cons] at hle
            omega)]
      simp

/-- When the number of appended points fits in the capacity, the buffer
ends holding them all and the eviction branch is never taken. -/
lemma run_trail_evict_small (m : ℕ) (pts : List (ℝ × ℝ)) (h : pts.length ≤ m) :
    run_trail_evict m pts = ((pts.map Prod.fst, pts.map Prod.snd), 0) := by
  have hfold := run_trail_evict_fold m pts [] [] 0 (by simpa using h)
  simpa [run_trail_evict] using hfold

/-- C7: with the program's grid (`N = T * fps = 1200` frames) and capacity
`trail_max = 8000`, the final buffer holds all 1200 trace points in
chronological order and the eviction branch is never taken. -/
theorem frame_loop_1200_no_evictions :
    N = 1200 ∧
    run_trail trail_max (t_values.map sliders_intersection)
        = ((t_values.map sliders_intersection).map Prod.fst,
           (t_values.map sliders_intersection).map Prod.snd) ∧
    (run_trail trail_max (t_values.map sliders_intersection)).1.length = 1200 ∧
    (run_trail_evict trail_max (t_values.map sliders_intersection)).2 = 0 := by
  have hlen : t_values.length = 1200 := by
    simp [t_values, N, T, fps]
  refine ⟨rfl, ?_, ?_, ?_⟩
  · rw [run_trail_eq]
    simp [lastN, List.length_map, hlen, trail_max]
  · rw [run_trail_eq]
    simp [lastN, List.length_map, hlen, trail_max]
  · refine congrArg Prod.snd (run_trail_evict_small trail_max _ ?_)
    rw [List.length_map, hlen, trail_max]
    norm_num

/-- C10: the time grid has `N = int(T*fps) = 1200` entries, starts at `0`,
ends at `T`, and every frame index the animation uses (`0 ≤ frame < N`)
is a valid index into `t_values`. -/
theorem t_values_grid_safe :
    N = 1200 ∧
    t_values.length = N ∧
    t_values[0]? = some 0 ∧
    t_values[N - 1]? = some ((T : ℕ) : ℝ) ∧
    ∀ frame : ℕ, frame < N → (t_values[frame]?).isSome = true := by
  refine ⟨rfl, ?_, ?_, ?_, ?_⟩
  · simp [t_values]
  · rw [t_values, List.getElem?_map, List.getElem?_range (show 0 < N by decide)]
    simp
  · rw [t_values, List.getElem?_map, List.getElem?_range (show N - 1 < N by decide)]
    simp only [Option.map_some']
    norm_num [N, T, fps]
  · intro frame h
    rw [t_values, List.getElem?_map, List.getElem?_range h]
    simp

/-- Witness for C10 at the concrete frame index `0`. -/
theorem t_values_grid_safe_witness :
    0 < N ∧ (t_values[0]?).isSome = true :=
  ⟨by decide, t_values_grid_safe.2.2.2.2 0 (by decide)⟩

/-- The traced point with the program's constants substituted in. -/
lemma sliders_intersection_eq (t : ℝ) :
    sliders_intersection t = (3 * Real.cos t, 2 * Real.sin (phi * t)) := by
  simp [sliders_intersection, Rx, Ry, omega_x, omega_y, phi_x, phi_y]

/-- The golden ratio constant of the program. -/
lemma phi_eq_goldenRatio : phi = goldenRatio := rfl

lemma phi_pos : 0 < phi := phi_eq_goldenRatio ▸ gold_pos

/-- The traced curve is not periodic: no positive `p` shifts every time to
the same traced point, because the frequency ratio is irrational. -/
lemma sliders_intersection_not_periodic :
    ¬ ∃ p : ℝ, 0 < p ∧ ∀ t, sliders_intersection (t + p) = sliders_intersection t := by
  rintro ⟨p, hp, hper⟩
  have hphi0 : phi ≠ 0 := ne_of_gt phi_pos
  -- the x-component forces p to be an integer multiple of 2*pi
  have hx : Real.cos p = 1 := by
    have h0 := congrArg Prod.fst (hper 0)
    simp [sliders_intersection_eq] at h0
    linarith [h0]
  obtain ⟨k, hk⟩ := (Real.cos_eq_one_iff p).mp hx
  have hkpos : 0 < k := by
    by_contra hk0
    push_neg at hk0
    have hkr : (k : ℝ) ≤ 0 := by exact_mod_cast hk0
    nlinarith [Real.pi_pos]
  -- the y-component forces phi*p to be an integer multiple of 2*pi
  have hy : Real.cos (phi * p) = 1 := by
    have ht := congrArg Prod.snd (hper ((Real.pi / 2 - phi * p) / phi))
    simp only [sliders_intersection_eq] at ht
    have harg1 : phi * ((Real.pi / 2 - phi * p) / phi + p) = Real.pi / 2 := by
      field_simp
      ring
    have harg2 : phi * ((Real.pi / 2 - phi * p) / phi) = Real.pi / 2 - phi * p := by
      field_simp
      ring
    rw [harg1, harg2, Real.sin_pi_div_two, Real.sin_pi_div_two_sub] at ht
    linarith
  obtain ⟨j, hj⟩ := (Real.cos_eq_one_iff (phi * p)).mp hy
  -- hence phi = j / k, contradicting irrationality of the golden ratio
  have hkne : (k : ℝ) ≠ 0 := by
    have : (0 : ℝ) < (k : ℝ) := by exact_mod_cast hkpos
    exact ne_of_gt this
  have h2pi : (2 * Real.pi) ≠ 0 := by positivity
  have key : phi * (k : ℝ) = (j : ℝ) := by
    have h2 : phi * (k : ℝ) * (2 * Real.pi) = (j : ℝ) * (2 * Real.pi) := by
      rw [mul_assoc, hk]
      exact hj.symm
    exact mul_right_cancel₀ h2pi h2
  have hqr : (((j : ℚ) / (k : ℚ) : ℚ) : ℝ) = phi := by
    push_cast
    rw [div_eq_iff hkne]
    exact key.symm
  exact (phi_eq_goldenRatio ▸ gold_irrational) ⟨(j : ℚ) / (k : ℚ), hqr.trans phi_eq_goldenRatio⟩

/-- C4: `omega_y` is the golden ratio times `omega_x`; with `omega_x = 1`
the frequency ratio is the golden ratio, an irrational number, and the
traced curve never exactly retraces within finite time. -/
theorem omega_ratio_golden_irrational :
    omega_y = phi * omega_x ∧
    phi = (1 + Real.sqrt 5) / 2 ∧
    omega_x = 1 ∧
    omega_y / omega_x = goldenRatio ∧
    Irrational (omega_y / omega_x) ∧
    ¬ ∃ p : ℝ, 0 < p ∧ ∀ t, sliders_intersection (t + p) = sliders_intersection t := by
  have hratio : omega_y / omega_x = goldenRatio := by
    rw [omega_y, omega_x]
    simp [phi_eq_goldenRatio]
  exact ⟨rfl, rfl, rfl, hratio,
    hratio ▸ gold_irrational, sliders_intersection_not_periodic⟩

/-- C5: the x-component of the traced point is periodic with period
`2*pi/omega_x`, the y-component with period `2*pi/omega_y`, but the
combined point has no positive period. -/
theorem trace_componentwise_periodic_not_jointly :
    (∀ t : ℝ, (sliders_intersection (t + 2 * Real.pi / omega_x)).1
        = (sliders_intersection t).1) ∧
    (∀ t : ℝ, (sliders_intersection (t + 2 * Real.pi / omega_y)).2
        = (sliders_intersection t).2) ∧
    ¬ ∃ p : ℝ, 0 < p ∧ ∀ t, sliders_intersection (t + p) = sliders_intersection t := by
  have hphi0 : phi ≠ 0 := ne_of_gt phi_pos
  refine ⟨?_, ?_, sliders_intersection_not_periodic⟩
  · intro t
    simp [sliders_intersection_eq, omega_x, Real.cos_add_two_pi]
  · intro t
    simp only [sliders_intersection_eq]
    have harg : phi * (t + 2 * Real.pi / omega_y) = phi * t + 2 * Real.pi := by
      rw [omega_y, omega_x]
      field_simp
      ring
    rw [harg, Real.sin_add_two_pi]

/-- C8: with the program's constants, the traced point at `t = 0` is
exactly `(3, 0)`, and at `t = pi/2/omega_x` its x-component is exactly `0`
and its y-component is `2 * sin(phi * pi/2)`. -/
theorem trace_at_zero_and_quarter_period :
    sliders_intersection 0 = ((3 : ℝ), (0 : ℝ)) ∧
    sliders_intersection (Real.pi / 2 / omega_x)
      = ((0 : ℝ), 2 * Real.sin (phi * (Real.pi / 2))) := by
  constructor
  · simp [sliders_intersection_eq]
  · simp [sliders_intersection_eq, omega_x, Real.cos_pi_div_two]

/-- Witness for C1 at `t = 0`. -/
theorem crank_pins_and_trace_closed_forms_witness :
    crank_pin_x 0 = (Rx * Real.cos (omega_x * 0 + phi_x), Rx * Real.sin (omega_x * 0 + phi_x)) :=
  (crank_pins_and_trace_closed_forms 0).1

/-- Witness for C2 at capacity `1` and two appended points. -/
theorem trail_buffer_bounded_and_suffix_witness :
    (run_trail 1 [((0 : ℝ), (0 : ℝ)), (1, 1)]).1.length ≤ 1 :=
  (trail_buffer_bounded_and_suffix 1 [((0 : ℝ), (0 : ℝ)), (1, 1)]).1

/-- Witness for C3 at the constant time grid `0`. -/
theorem frame_loop_10000_keeps_last_8000_witness :
    (run_trail trail_max ((List.range 10000).map fun _ => sliders_intersection 0)).1.length
      = 8000 :=
  (frame_loop_10000_keeps_last_8000 (fun _ => 0)).2.2

/-- Witness for C5: the x-component period instantiated at `t = 0`. -/
theorem trace_componentwise_periodic_not_jointly_witness :
    (sliders_intersection (0 + 2 * Real.pi / omega_x)).1 = (sliders_intersection 0).1 :=
  trace_componentwise_periodic_not_jointly.1 0

/-- Witness for C6 at a single appended point. -/
theorem trail_buffer_capacity_zero_witness :
    run_trail 0 [((1 : ℝ), (2 : ℝ))] = ([], []) :=
  trail_buffer_capacity_zero [((1 : ℝ), (2 : ℝ))]

/-- Witness for C9 at capacity `1` and a single appended point. -/
theorem trail_lists_parallel_witness :
    (run_trail 1 [((3 : ℝ), (4 : ℝ))]).1.length = (run_trail 1 [((3 : ℝ), (4 : ℝ))]).2.length :=
  trail_lists_parallel 1 [((3 : ℝ), (4 : ℝ))]
